import Mathlib

/-!
Verification of the rendering/interaction core of the KLineChart repository.

The development shallowly embeds the relevant TypeScript source files:

* `src/common/Action.ts` (publish/subscribe bus) — callbacks are modelled by
  their reference identity (a natural number); `execute` returns the list of
  invocations it performs, in order.
* `src/common/utils/number.ts` (`binarySearchNearest`, `nice`, `log10`,
  `index10`) — JS array indices are modelled as `Int` (JS indices can go
  negative), reads through a total lookup returning `Option` so that an
  out-of-bounds read makes the whole computation return `none` (a JS
  `TypeError`); JS floating point numbers in `nice` are modelled as reals.
* `src/common/Animation.ts` — an explicit state machine over the instance
  fields plus a count of platform frames scheduled via
  `requestAnimationFrame`; every operation returns the new state together
  with the list of elapsed-time values passed to the `_doFrameCallback`.
* `src/common/Eventful.ts` — a tree of dispatch nodes, specialised to one
  fixed dispatched `(name, event)` pair: each node records whether a callback
  is registered for that name, what that callback returns on this event, and
  the node's (possibly overridden) hit test; dispatch returns whether the
  event was consumed together with the identities of the handlers invoked,
  in invocation order.
* `src/common/Canvas.ts` — two state machines: one for the pixel/repaint
  coalescing logic (`update` / `_mediaQueryListener` / `_executeListener` /
  `_resetPixelRatio` in the media-query fallback mode), one for the
  asynchronous device-pixel-content-box capability probe and `destroy`.
-/

namespace KC

/-! ### Action bus (`src/common/Action.ts`)

A callback is identified by its JS reference, modelled as a `Nat`.
`_callbacks` is the ordered subscription list. -/

/-- `Action.subscribe`: `indexOf(callback) < 0` guards the `push`, so
registering a callback reference already present is a no-op. -/
def subscribe (callbacks : List Nat) (callback : Nat) : List Nat :=
  if callback ∈ callbacks then callbacks else callbacks ++ [callback]

/-- `Action.unsubscribe(callback)` with an argument: `splice` removes the
first occurrence found by `indexOf`, when present. -/
def unsubscribeOne (callbacks : List Nat) (callback : Nat) : List Nat :=
  callbacks.erase callback

/-- `Action.unsubscribe()` with no argument: the callback list is replaced by
the empty list. -/
def unsubscribeAll (_callbacks : List Nat) : List Nat :=
  []

/-- `Action.execute(data)`: invokes every current subscriber in order with the
same data value.  The result is the list of invocations performed, as
(callback reference, data) pairs. -/
def execute (callbacks : List Nat) (data : Int) : List (Nat × Int) :=
  callbacks.map fun callback => (callback, data)

/-- `Action.isEmpty`. -/
def isEmpty (callbacks : List Nat) : Bool :=
  callbacks.length = 0

/-! ### Nearest-index binary search (`binarySearchNearest`)

The JS loop keeps two `Int` cursors `left` and `right`; each iteration reads
`dataList[midIndex]`, `dataList[left]` and `dataList[right]`.  A JS read at a
negative or too-large index yields `undefined`, and the subsequent `[valueKey]`
access throws; this is modelled by `getKey` returning `none`, which makes the
whole search return `none`.  `Math.floor((right + left) / 2)` is floor
division, i.e. `Int.ediv` (the divisor is positive). -/

/-- Read the comparison key of `dataList[i]` at a JS (possibly negative)
index. -/
def getKey (keys : List Int) (i : Int) : Option Int :=
  if 0 ≤ i then keys[i.toNat]? else none

/-- The `for (right = dataList.length - 1; left !== right;)` loop of
`binarySearchNearest`.  Each iteration: exact-match short circuits at `left`,
`right` and the midpoint; otherwise the window moves (`left = midIndex` when
`targetValue > midValue`, else `right = midIndex`), and the loop breaks,
returning the (updated) left cursor, when the window size captured at the top
of the iteration (`mid = right - left`) was at most 2. -/
def bsnLoop (keys : List Int) (target : Int) (left right : Int) : Option Int :=
  if left = right then some left
  else
    match getKey keys ((right + left) / 2), getKey keys left, getKey keys right with
    | some midValue, some leftValue, some rightValue =>
      if target = leftValue then some left
      else if target = rightValue then some right
      else if target = midValue then some ((right + left) / 2)
      else if target > midValue then
        if right - left ≤ 2 then some ((right + left) / 2)
        else bsnLoop keys target ((right + left) / 2) right
      else
        if right - left ≤ 2 then some left
        else bsnLoop keys target left ((right + left) / 2)
    | _, _, _ => none
termination_by (right - left).toNat
decreasing_by
  all_goals omega

/-- `binarySearchNearest(dataList, valueKey, targetValue)`, over the list of
comparison keys: runs the search loop with `left = 0` and
`right = dataList.length - 1`. -/
def binarySearchNearest (keys : List Int) (target : Int) : Option Int :=
  bsnLoop keys target 0 ((keys.length : Int) - 1)

/-- Index `n` is (one of) the indices whose key is closest to the target. -/
def IsNearest (keys : List Int) (target : Int) (n : Nat) : Prop :=
  n < keys.length ∧ ∀ j, j < keys.length → |keys.getD n 0 - target| ≤ |keys.getD j 0 - target|

instance (keys : List Int) (target : Int) (n : Nat) : Decidable (IsNearest keys target n) := by
  unfold IsNearest
  infer_instance

/-! ### Animation driver (`src/common/Animation.ts`)

The instance fields of `Animation`, together with the number of `step`
callbacks currently scheduled on the platform via `requestAnimationFrame`
(the class never cancels a scheduled frame, so the count only drops when a
frame fires).  Timestamps (`new Date().getTime()`) are modelled as integers
supplied by the events.  Each operation returns the successor state and the
list of elapsed-time values passed to the `_doFrameCallback` during it. -/

structure AnimationState where
  duration : Int
  iterationCount : Nat
  currentIterationCount : Nat
  running : Bool
  time : Int
  pending : Nat
deriving Repr, DecidableEq

/-- `new Animation({duration, iterationCount})`: merged options, counters and
flags cleared, nothing scheduled. -/
def Animation.init (duration : Int) (iterationCount : Nat) : AnimationState :=
  { duration := duration, iterationCount := iterationCount, currentIterationCount := 0,
    running := false, time := 0, pending := 0 }

/-- `Animation.stop`: if the driver is running, invoke the frame callback one
final time with the configured duration; then clear the running flag. -/
def Animation.stop (s : AnimationState) : AnimationState × List Int :=
  ({ s with running := false }, if s.running then [s.duration] else [])

/-- `Animation.start`: a no-op while running; otherwise record the start
timestamp and enter `_loop`, which sets the running flag and schedules one
`step` frame. -/
def Animation.start (now : Int) (s : AnimationState) : AnimationState × List Int :=
  if s.running then (s, [])
  else ({ s with time := now, running := true, pending := s.pending + 1 }, [])

/-- One scheduled `step` callback fires at platform time `now` (a no-op when
nothing is scheduled).  Mirrors the closure built in `Animation._loop`: if the
driver is still running, either invoke the frame callback with the elapsed
time and reschedule (elapsed < duration), or `stop()`, advance the iteration
counter and `start()` again while iterations remain. -/
def Animation.fireStep (now : Int) (s : AnimationState) : AnimationState × List Int :=
  if s.pending = 0 then (s, [])
  else
    let s0 := { s with pending := s.pending - 1 }
    if s0.running then
      let diffTime := now - s0.time
      if diffTime < s0.duration then
        ({ s0 with pending := s0.pending + 1 }, [diffTime])
      else
        let r1 := Animation.stop s0
        let s2 := { r1.1 with currentIterationCount := r1.1.currentIterationCount + 1 }
        if s2.currentIterationCount < s2.iterationCount then
          let r3 := Animation.start now s2
          (r3.1, r1.2 ++ r3.2)
        else (s2, r1.2)
    else (s0, [])

/-- External events driving an `Animation` instance: API calls and platform
frame callbacks. -/
inductive AnimEvent where
  | start (now : Int)
  | stop
  | fire (now : Int)
deriving Repr, DecidableEq

/-- Apply one event. -/
def Animation.step (s : AnimationState) : AnimEvent → AnimationState × List Int
  | AnimEvent.start now => Animation.start now s
  | AnimEvent.stop => Animation.stop s
  | AnimEvent.fire now => Animation.fireStep now s

/-- Run a sequence of events, concatenating the frame-callback invocations. -/
def Animation.run (s : AnimationState) : List AnimEvent → AnimationState × List Int
  | [] => (s, [])
  | e :: rest =>
    let r1 := Animation.step s e
    let r2 := Animation.run r1.1 rest
    (r2.1, r1.2 ++ r2.2)

/-- A trace is guarded when every external `start` is issued only while
iterations remain (`currentIterationCount < iterationCount` at that point);
`stop` and platform frames are unrestricted. -/
def Animation.goodTrace (s : AnimationState) : List AnimEvent → Bool
  | [] => true
  | e :: rest =>
    (match e with
     | AnimEvent.start _ => decide (s.currentIterationCount < s.iterationCount)
     | _ => true) && Animation.goodTrace (Animation.step s e).1 rest

/-- The driver state invariant used for the guarded-trace analysis: the
iteration counter never exceeds the configured count, strictly so while
running. -/
def Animation.Inv (t : AnimationState) : Prop :=
  t.currentIterationCount ≤ t.iterationCount ∧
  (t.running = true → t.currentIterationCount < t.iterationCount)

/-- A mid-flight driver state: duration 100, two iterations, first iteration
running since time 0 with one frame scheduled. -/
def Animation.midState : AnimationState :=
  { duration := 100, iterationCount := 2, currentIterationCount := 0,
    running := true, time := 0, pending := 1 }

/-! ### Event dispatch tree (`src/common/Eventful.ts`)

The model is specialised to one fixed dispatched `(name, event)` pair.  A
node records the identity of its registered handler for that name (if any),
what that handler returns on this event, and — since `checkEventOn` is
overridden by concrete subclasses — either an overridden hit-test result or
`none` for the base-class behaviour (hit iff some child is hit).  Children
are kept in insertion order (`addChild` appends). -/

structure ENode where
  eid : Nat
  hasCallback : Bool
  callbackResult : Bool
  hitOverride : Option Bool
deriving Repr, DecidableEq

mutual
inductive ETree where
  | node : ENode → EForest → ETree
inductive EForest where
  | nil : EForest
  | cons : ETree → EForest → EForest
end

/-! `Eventful.checkEventOn` (base-class version, unless overridden): true iff
some child reports a hit. -/
mutual
def ETree.checkEventOn : ETree → Bool
  | ETree.node n cs =>
    match n.hitOverride with
    | some b => b
    | none => EForest.anyHit cs
def EForest.anyHit : EForest → Bool
  | EForest.nil => false
  | EForest.cons c rest => ETree.checkEventOn c || EForest.anyHit rest
end

/-- `Eventful.onEvent`: the node's own handler fires iff one is registered
for the event name and the hit test passes; the result is the handler's
return value together with the invocation performed. -/
def ETree.onEvent : ETree → Bool × List Nat
  | ETree.node n cs =>
    if n.hasCallback && ETree.checkEventOn (ETree.node n cs) then (n.callbackResult, [n.eid])
    else (false, [])

/-! `Eventful.dispatchEvent`: try the children from the last added one
(topmost) backwards, stopping at the first that reports the event handled;
only if none does, try the node's own handler.  Returns whether the event was
consumed and the handler invocations performed, in order.
`EForest.dispatchTopmost` realises the `for (let i = start; i > -1; i--)`
loop: the tail of the child list (the later-added children) is tried before
the head. -/
mutual
def ETree.dispatchEvent : ETree → Bool × List Nat
  | ETree.node n cs =>
    match EForest.dispatchTopmost cs with
    | (true, l) => (true, l)
    | (false, l) =>
      let own := ETree.onEvent (ETree.node n cs)
      (own.1, l ++ own.2)
def EForest.dispatchTopmost : EForest → Bool × List Nat
  | EForest.nil => (false, [])
  | EForest.cons c rest =>
    match EForest.dispatchTopmost rest with
    | (true, l) => (true, l)
    | (false, l) =>
      let r := ETree.dispatchEvent c
      (r.1, l ++ r.2)
end

/-! ### Surface manager, repaint coalescing (`src/common/Canvas.ts`)

State machine for the pixel/repaint logic of `Canvas` in the media-query
fallback mode (`_supportedDevicePixelContentBox = false`), covering
`update`, `_mediaQueryListener`, `_resetPixelRatio`, `_executeListener` and
the scheduled frame callback.  The element's CSS layout size is modelled by
`styleWidth`/`styleHeight` (`element.style` writes become `clientWidth`
reads), the physical buffer by `elementWidth`/`elementHeight`, and the
pending animation-frame request by `frameRequest`: `none` when
`_requestAnimationId = DEFAULT_REQUEST_ID`, `some withReset` when a frame is
scheduled whose closure carries the `_resetPixelRatio` body iff
`withReset`. -/

structure CanvasPixelState where
  width : Int
  height : Int
  pixelWidth : Int
  pixelHeight : Int
  nextPixelWidth : Int
  nextPixelHeight : Int
  styleWidth : Int
  styleHeight : Int
  elementWidth : Int
  elementHeight : Int
  supportedDevicePixelContentBox : Bool
  frameRequest : Option Bool
deriving Repr, DecidableEq

/-- Observable effects of a fired frame: the physical reconciliation
performed by the `_resetPixelRatio` closure, and the paint `_listener`
invocation. -/
inductive CanvasEffect where
  | reconcile
  | paint
deriving Repr, DecidableEq

/-- `Canvas._executeListener(fn)`: a frame is requested only when none is
pending (`_requestAnimationId === DEFAULT_REQUEST_ID`); otherwise the call is
absorbed — in particular the closure `fn` of an absorbed call is dropped. -/
def Canvas.executeListener (withReset : Bool) (s : CanvasPixelState) : CanvasPixelState :=
  match s.frameRequest with
  | none => { s with frameRequest := some withReset }
  | some _ => s

/-- `Canvas._resetPixelRatio`: schedule a frame carrying the reconciliation
closure. -/
def Canvas.resetPixelRatio (s : CanvasPixelState) : CanvasPixelState :=
  Canvas.executeListener true s

/-- `Canvas.update(w, h)`: on a size change, apply the CSS size and (in the
fallback mode) recompute the pending physical size from the current pixel
ratio and request reconciliation; on an unchanged size, just request a
repaint. -/
def Canvas.update (w h : Int) (pixelRatio : ℚ) (s : CanvasPixelState) : CanvasPixelState :=
  if s.width ≠ w ∨ s.height ≠ h then
    let s1 := { s with styleWidth := w, styleHeight := h }
    if !s1.supportedDevicePixelContentBox then
      let s2 := { s1 with nextPixelWidth := round ((w : ℚ) * pixelRatio),
                          nextPixelHeight := round ((h : ℚ) * pixelRatio) }
      Canvas.resetPixelRatio s2
    else s1
  else Canvas.executeListener false s

/-- `Canvas._mediaQueryListener` (density-change notification): recompute the
pending physical size from the element's CSS size and the new pixel ratio,
then request reconciliation. -/
def Canvas.mediaQueryListener (pixelRatio : ℚ) (s : CanvasPixelState) : CanvasPixelState :=
  let s1 := { s with nextPixelWidth := round ((s.styleWidth : ℚ) * pixelRatio),
                     nextPixelHeight := round ((s.styleHeight : ℚ) * pixelRatio) }
  Canvas.resetPixelRatio s1

/-- The scheduled animation frame fires: clear, run the captured
`_resetPixelRatio` closure if the frame carries one (reading the instance
fields at fire time), invoke the paint listener, and release the request
id. -/
def Canvas.fireFrame (s : CanvasPixelState) : CanvasPixelState × List CanvasEffect :=
  match s.frameRequest with
  | none => (s, [])
  | some withReset =>
    if withReset then
      let s1 := { s with width := s.styleWidth, height := s.styleHeight,
                         pixelWidth := s.nextPixelWidth, pixelHeight := s.nextPixelHeight,
                         elementWidth := s.nextPixelWidth, elementHeight := s.nextPixelHeight,
                         frameRequest := none }
      (s1, [CanvasEffect.reconcile, CanvasEffect.paint])
    else ({ s with frameRequest := none }, [CanvasEffect.paint])

/-- Repaint triggers that can arrive while a frame is pending (fallback
mode): `update` calls and density-change notifications. -/
inductive CanvasTrigger where
  | update (w h : Int) (pixelRatio : ℚ)
  | densityChange (pixelRatio : ℚ)
deriving Repr, DecidableEq

/-- Apply one trigger. -/
def Canvas.applyTrigger (s : CanvasPixelState) : CanvasTrigger → CanvasPixelState
  | CanvasTrigger.update w h r => Canvas.update w h r s
  | CanvasTrigger.densityChange r => Canvas.mediaQueryListener r s

/-- Apply a sequence of triggers. -/
def Canvas.applyTriggers (s : CanvasPixelState) : List CanvasTrigger → CanvasPixelState
  | [] => s
  | t :: rest => Canvas.applyTriggers (Canvas.applyTrigger s t) rest

/-- Whether a trigger, arriving in state `s`, requests reconciliation (passes
the `_resetPixelRatio` closure) rather than a plain repaint. -/
def CanvasTrigger.schedulesReset (s : CanvasPixelState) : CanvasTrigger → Bool
  | CanvasTrigger.update w h _ => decide (s.width ≠ w ∨ s.height ≠ h)
  | CanvasTrigger.densityChange _ => true

/-- A settled sample state in fallback mode: CSS size 100×100 at pixel ratio
1, nothing pending. -/
def Canvas.sample : CanvasPixelState :=
  { width := 100, height := 100, pixelWidth := 100, pixelHeight := 100,
    nextPixelWidth := 100, nextPixelHeight := 100, styleWidth := 100, styleHeight := 100,
    elementWidth := 100, elementHeight := 100,
    supportedDevicePixelContentBox := false, frameRequest := none }

/-! ### Surface manager, capability probe and teardown (`src/common/Canvas.ts`)

State machine for the asynchronous `isSupportedDevicePixelContentBox()`
probe started by the constructor, the observers its `.then` continuation
installs, and `destroy()`.  `resizeObserverSet`/`mediaQueryListSet` record
whether the corresponding instance field has been assigned (the `isValid`
guards in `destroy`), the `…Observing`/`…Installed` flags whether the
observer is currently attached to the element / media query list. -/

structure CanvasProbeState where
  supportedDevicePixelContentBox : Bool
  resizeObserverSet : Bool
  resizeObserverObserving : Bool
  mediaQueryListSet : Bool
  mediaListenerInstalled : Bool
deriving Repr, DecidableEq

/-- State right after the constructor returns, while the capability probe is
still unresolved: no observer fields assigned, nothing installed. -/
def Canvas.probeInit : CanvasProbeState :=
  { supportedDevicePixelContentBox := false, resizeObserverSet := false,
    resizeObserverObserving := false, mediaQueryListSet := false,
    mediaListenerInstalled := false }

/-- The probe promise resolves with `result`: the `.then` continuation stores
the flag and installs either a `ResizeObserver` observing the canvas element
or the media-query listener — unconditionally (it contains no liveness
check). -/
def Canvas.probeResolve (result : Bool) (s : CanvasProbeState) : CanvasProbeState :=
  let s1 := { s with supportedDevicePixelContentBox := result }
  if result then
    { s1 with resizeObserverSet := true, resizeObserverObserving := true }
  else
    { s1 with mediaQueryListSet := true, mediaListenerInstalled := true }

/-- `Canvas.destroy()`: unobserve / remove the listener, each guarded by an
`isValid` check on the corresponding field, so it is a total no-op when the
fields were never assigned. -/
def Canvas.destroy (s : CanvasProbeState) : CanvasProbeState :=
  let s1 := if s.resizeObserverSet then { s with resizeObserverObserving := false } else s
  if s1.mediaQueryListSet then { s1 with mediaListenerInstalled := false } else s1

/-! ### Tick-value rounding (`nice`, `log10`, `index10`)

JS floating-point numbers are modelled as reals; `Math.log10` and
`Math.pow(10, ·)` become `Real.logb 10` and the real power.  `toFixed(d)`
followed by the unary `+` is modelled as exact rounding (round half away
from zero on the nonnegative values arising here) to `d` decimal places. -/

/-- The repository's `log10`: defined to return 0 at 0 (avoiding the domain
error), `Math.log10` elsewhere. -/
noncomputable def log10 (value : ℝ) : ℝ :=
  if value = 0 then 0 else Real.logb 10 value

/-- The repository's `index10`: `Math.pow(10, value)`. -/
noncomputable def index10 (value : ℝ) : ℝ :=
  (10 : ℝ) ^ value

/-- `+value.toFixed(digits)`: round to `digits` decimal places. -/
noncomputable def toFixedNum (value : ℝ) (digits : Nat) : ℝ :=
  (round (value * 10 ^ digits) : ℝ) / 10 ^ digits

/-- The repository's `nice`: snap the mantissa `f = value / 10^floor(log10
value)` to `{1,2,3,4,5,6,8}` at the breakpoints `1.5, 2.5, 3.5, 4.5, 5.5,
6.5`, rebuild `nf × 10^exponent`, and round the result to `|exponent|`
decimal places. -/
noncomputable def nice (value : ℝ) : ℝ :=
  let exponent : ℤ := ⌊log10 value⌋
  let exp10 := index10 (exponent : ℝ)
  let f := value / exp10
  let nf : ℝ :=
    if f < 1.5 then 1
    else if f < 2.5 then 2
    else if f < 3.5 then 3
    else if f < 4.5 then 4
    else if f < 5.5 then 5
    else if f < 6.5 then 6
    else 8
  toFixedNum (nf * exp10) exponent.natAbs

/-! #### Supporting lemmas about the search loop -/

/-- An in-bounds `getKey` read succeeds and returns the stored key. -/
theorem getKey_eq (keys : List Int) (i : Int) (h0 : 0 ≤ i) (h1 : i < (keys.length : Int)) :
    getKey keys i = some (keys.getD i.toNat 0) := by
  unfold getKey
  rw [if_pos h0, List.getElem?_eq_getElem (by omega), List.getD_eq_getElem _ _ (by omega)]

/-- With an in-bounds window the loop only performs in-bounds reads (so it
returns `some`), and the returned index stays inside the window. -/
theorem bsnLoop_some (keys : List Int) (target : Int) :
    ∀ (n : Nat) (left right : Int), (right - left).toNat ≤ n →
    0 ≤ left → left ≤ right → right < (keys.length : Int) →
    ∃ i, bsnLoop keys target left right = some i ∧ left ≤ i ∧ i ≤ right := by
  intro n
  induction n with
  | zero =>
    intro left right h1 h2 h3 h4
    have he : left = right := by omega
    subst he
    rw [bsnLoop]
    exact ⟨left, by simp, le_refl _, le_refl _⟩
  | succ n ih =>
    intro left right h1 h2 h3 h4
    by_cases he : left = right
    · subst he
      rw [bsnLoop]
      exact ⟨left, by simp, le_refl _, le_refl _⟩
    · have hmid0 : 0 ≤ (right + left) / 2 := by omega
      have hmidl : left ≤ (right + left) / 2 := by omega
      have hmidr : (right + left) / 2 ≤ right := by omega
      rw [bsnLoop, if_neg he, getKey_eq keys _ hmid0 (by omega), getKey_eq keys left h2 (by omega),
        getKey_eq keys right (by omega) h4]
      dsimp only
      by_cases h5 : target = keys.getD left.toNat 0
      · rw [if_pos h5]; exact ⟨left, rfl, le_refl _, h3⟩
      · rw [if_neg h5]
        by_cases h6 : target = keys.getD right.toNat 0
        · rw [if_pos h6]; exact ⟨right, rfl, h3, le_refl _⟩
        · rw [if_neg h6]
          by_cases h7 : target = keys.getD ((right + left) / 2).toNat 0
          · rw [if_pos h7]; exact ⟨_, rfl, hmidl, hmidr⟩
          · rw [if_neg h7]
            by_cases h8 : target > keys.getD ((right + left) / 2).toNat 0
            · rw [if_pos h8]
              by_cases h9 : right - left ≤ 2
              · rw [if_pos h9]; exact ⟨_, rfl, hmidl, hmidr⟩
              · rw [if_neg h9]
                obtain ⟨i, hi, hil, hir⟩ := ih ((right + left) / 2) right (by omega) hmid0 hmidr h4
                exact ⟨i, hi, le_trans hmidl hil, hir⟩
            · rw [if_neg h8]
              by_cases h9 : right - left ≤ 2
              · rw [if_pos h9]; exact ⟨left, rfl, le_refl _, h3⟩
              · rw [if_neg h9]
                obtain ⟨i, hi, hil, hir⟩ := ih left ((right + left) / 2) (by omega) h2 hmidl
                  (by omega)
                exact ⟨i, hi, hil, le_trans hir hmidr⟩

/-- In a sorted list, an index whose key is strictly below the target is at
most as close to the target as any smaller-or-equal index: nearestness
transfers upward onto it. -/
theorem nearest_transfer_up (keys : List Int) (target : Int)
    (hs : ∀ a b : Nat, a ≤ b → b < keys.length → keys.getD a 0 ≤ keys.getD b 0)
    (a b : Nat) (hab : a ≤ b) (hb : b < keys.length)
    (hlt : keys.getD b 0 < target) (hn : IsNearest keys target a) :
    IsNearest keys target b := by
  refine ⟨hb, fun j hj => ?_⟩
  have h1 : keys.getD a 0 ≤ keys.getD b 0 := hs a b hab hb
  have h2 : |keys.getD b 0 - target| ≤ |keys.getD a 0 - target| := by
    rw [abs_of_nonpos (by omega), abs_of_nonpos (by omega)]
    omega
  exact le_trans h2 (hn.2 j hj)

/-- Mirror image of `nearest_transfer_up`, for an index whose key is strictly
above the target. -/
theorem nearest_transfer_down (keys : List Int) (target : Int)
    (hs : ∀ a b : Nat, a ≤ b → b < keys.length → keys.getD a 0 ≤ keys.getD b 0)
    (a b : Nat) (hba : b ≤ a) (hb : b < keys.length)
    (hlt : target < keys.getD b 0) (hn : IsNearest keys target a) :
    IsNearest keys target b := by
  refine ⟨hb, fun j hj => ?_⟩
  have h1 : keys.getD b 0 ≤ keys.getD a 0 := hs b a hba hn.1
  have h2 : |keys.getD b 0 - target| ≤ |keys.getD a 0 - target| := by
    rw [abs_of_nonneg (by omega), abs_of_nonneg (by omega)]
    omega
  exact le_trans h2 (hn.2 j hj)

/-- An exact match is a nearest index. -/
theorem nearest_of_eq (keys : List Int) (target : Int) (n : Nat) (hn : n < keys.length)
    (he : target = keys.getD n 0) : IsNearest keys target n := by
  refine ⟨hn, fun j hj => ?_⟩
  rw [← he]
  simp [abs_nonneg]

/-- Main loop invariant: if the window `[left, right]` contains a nearest
index, the loop returns an index `i` such that a nearest index lies in
`{i, i+1}`. -/
theorem bsnLoop_nearest (keys : List Int) (target : Int)
    (hs : ∀ a b : Nat, a ≤ b → b < keys.length → keys.getD a 0 ≤ keys.getD b 0) :
    ∀ (n : Nat) (left right : Int), (right - left).toNat ≤ n →
    0 ≤ left → left ≤ right → right < (keys.length : Int) →
    (∃ m : Nat, left.toNat ≤ m ∧ (m : Int) ≤ right ∧ IsNearest keys target m) →
    ∃ i, bsnLoop keys target left right = some i ∧
      ∃ m : Nat, (m = i.toNat ∨ m = i.toNat + 1) ∧ IsNearest keys target m := by
  intro n
  induction n with
  | zero =>
    intro left right h1 h2 h3 h4 hw
    have he : left = right := by omega
    subst he
    obtain ⟨m, hm1, hm2, hm3⟩ := hw
    rw [bsnLoop]
    exact ⟨left, by simp, m, Or.inl (by omega), hm3⟩
  | succ n ih =>
    intro left right h1 h2 h3 h4 hw
    by_cases he : left = right
    · subst he
      obtain ⟨m, hm1, hm2, hm3⟩ := hw
      rw [bsnLoop]
      exact ⟨left, by simp, m, Or.inl (by omega), hm3⟩
    · have hmid0 : 0 ≤ (right + left) / 2 := by omega
      have hmidl : left ≤ (right + left) / 2 := by omega
      have hmidr : (right + left) / 2 ≤ right := by omega
      rw [bsnLoop, if_neg he, getKey_eq keys _ hmid0 (by omega), getKey_eq keys left h2 (by omega),
        getKey_eq keys right (by omega) h4]
      dsimp only
      by_cases h5 : target = keys.getD left.toNat 0
      · rw [if_pos h5]
        exact ⟨left, rfl, left.toNat, Or.inl rfl, nearest_of_eq keys target _ (by omega) h5⟩
      · rw [if_neg h5]
        by_cases h6 : target = keys.getD right.toNat 0
        · rw [if_pos h6]
          exact ⟨right, rfl, right.toNat, Or.inl rfl, nearest_of_eq keys target _ (by omega) h6⟩
        · rw [if_neg h6]
          by_cases h7 : target = keys.getD ((right + left) / 2).toNat 0
          · rw [if_pos h7]
            exact ⟨_, rfl, ((right + left) / 2).toNat, Or.inl rfl,
              nearest_of_eq keys target _ (by omega) h7⟩
          · rw [if_neg h7]
            by_cases h8 : target > keys.getD ((right + left) / 2).toNat 0
            · rw [if_pos h8]
              by_cases h9 : right - left ≤ 2
              · rw [if_pos h9]
                obtain ⟨m, hm1, hm2, hm3⟩ := hw
                refine ⟨(right + left) / 2, rfl, ?_⟩
                by_cases hw2 : right - left = 1
                · have hmeq : ((right + left) / 2).toNat = left.toNat := by omega
                  rw [hmeq]
                  exact ⟨m, by omega, hm3⟩
                · have hw3 : right - left = 2 := by omega
                  have hmeq : ((right + left) / 2).toNat = left.toNat + 1 := by omega
                  by_cases hm4 : m = left.toNat
                  · refine ⟨left.toNat + 1, by omega, ?_⟩
                    refine nearest_transfer_up keys target hs m (left.toNat + 1) (by omega)
                      (by omega) ?_ hm3
                    rw [← hmeq]
                    omega
                  · exact ⟨m, by omega, hm3⟩
              · rw [if_neg h9]
                refine ih ((right + left) / 2) right (by omega) hmid0 hmidr h4 ?_
                obtain ⟨m, hm1, hm2, hm3⟩ := hw
                by_cases hm4 : ((right + left) / 2).toNat ≤ m
                · exact ⟨m, hm4, hm2, hm3⟩
                · refine ⟨((right + left) / 2).toNat, le_refl _, by omega, ?_⟩
                  exact nearest_transfer_up keys target hs m _ (by omega) (by omega) (by omega) hm3
            · rw [if_neg h8]
              have h8x : target < keys.getD ((right + left) / 2).toNat 0 := by omega
              by_cases h9 : right - left ≤ 2
              · rw [if_pos h9]
                obtain ⟨m, hm1, hm2, hm3⟩ := hw
                refine ⟨left, rfl, ?_⟩
                by_cases hw2 : right - left = 1
                · exact ⟨m, by omega, hm3⟩
                · have hw3 : right - left = 2 := by omega
                  have hmeq : ((right + left) / 2).toNat = left.toNat + 1 := by omega
                  by_cases hm4 : m = left.toNat + 2
                  · refine ⟨left.toNat + 1, by omega, ?_⟩
                    refine nearest_transfer_down keys target hs m (left.toNat + 1) (by omega)
                      (by omega) ?_ hm3
                    rw [← hmeq]
                    omega
                  · exact ⟨m, by omega, hm3⟩
              · rw [if_neg h9]
                refine ih left ((right + left) / 2) (by omega) h2 hmidl (by omega) ?_
                obtain ⟨m, hm1, hm2, hm3⟩ := hw
                by_cases hm4 : (m : Int) ≤ (right + left) / 2
                · exact ⟨m, hm1, hm4, hm3⟩
                · refine ⟨((right + left) / 2).toNat, by omega, by omega, ?_⟩
                  exact nearest_transfer_down keys target hs m _ (by omega) (by omega) (by omega)
                    hm3


/-! ## Claim theorems -/

/-- C8: Action bus subscription is idempotent on callback reference and
unsubscribe with no argument empties the set: starting from any
duplicate-free subscription list, after `subscribe f; subscribe f`,
`execute x` invokes `f` exactly once (with `x`); the second `subscribe` is a
no-op; and after a subsequent `unsubscribe()` with no argument, `execute x`
invokes no callback at all. -/
theorem action_bus_spec (s : List Nat) (f : Nat) (x : Int) (h : s.Nodup) :
    (execute (subscribe (subscribe s f) f) x).count (f, x) = 1 ∧
    subscribe (subscribe s f) f = subscribe s f ∧
    execute (unsubscribeAll (subscribe (subscribe s f) f)) x = [] := by
  have hmem : f ∈ subscribe s f := by
    unfold subscribe
    split
    · assumption
    · simp
  have hidem : subscribe (subscribe s f) f = subscribe s f := by
    show (if f ∈ subscribe s f then subscribe s f else subscribe s f ++ [f]) = subscribe s f
    rw [if_pos hmem]
  have hc : ∀ L : List Nat, (execute L x).count (f, x) = L.count f := by
    intro L
    induction L with
    | nil => rfl
    | cons a L ih =>
      simp only [execute, List.map_cons, List.count_cons] at *
      rw [ih]
      by_cases haf : a = f
      · subst haf
        simp
      · simp [haf]
  have hcount : (subscribe s f).count f = 1 := by
    unfold subscribe
    split
    · exact List.count_eq_one_of_mem h (by assumption)
    · rw [List.count_append]
      simp [List.count_eq_zero_of_not_mem (by assumption)]
  refine ⟨?_, hidem, rfl⟩
  rw [hidem, hc, hcount]

/-- Witness for C8 at the empty initial subscription list, `f = 7`,
`x = 5`. -/
theorem action_bus_spec_witness :
    ([] : List Nat).Nodup ∧
    ((execute (subscribe (subscribe [] 7) 7) 5).count (7, 5) = 1 ∧
     subscribe (subscribe [] 7) 7 = subscribe [] 7 ∧
     execute (unsubscribeAll (subscribe (subscribe [] 7) 7)) 5 = []) :=
  ⟨List.nodup_nil, action_bus_spec [] 7 5 List.nodup_nil⟩

/-- C1 (counterexample): on the ascending two-element list with keys
`[1, 10]` and target `9`, `binarySearchNearest` returns index 0, whose key 1
is at distance 8 from the target, although index 1 (key 10, distance 1) is
strictly closer — so the returned index does not minimise the distance over
all valid indices. -/
theorem binarySearchNearest_claim_cx :
    List.Sorted (· ≤ ·) [(1 : Int), 10] ∧ ([(1 : Int), 10] : List Int) ≠ [] ∧
    binarySearchNearest [(1 : Int), 10] 9 = some 0 ∧
    ¬ IsNearest [(1 : Int), 10] 9 0 ∧ IsNearest [(1 : Int), 10] 9 1 := by
  refine ⟨by decide, by decide, by simp [binarySearchNearest, bsnLoop, getKey], ?_, by decide⟩
  intro h
  have h2 := h.2 1 (by decide)
  norm_num at h2

/-- C1 (amended): for every ascending-ordered non-empty key list and every
target, `binarySearchNearest` returns (without any out-of-bounds read) an
in-bounds index `i` such that some globally nearest index lies in
`{i, i + 1}` — i.e. a nearest candidate is within the final ≤2-candidate
window whose left bound is returned; when an exact-match short-circuit fires,
the returned index itself is nearest.  The returned index itself need not be
the nearest one. -/
theorem binarySearchNearest_nearest_window (keys : List Int) (target : Int)
    (hsort : List.Sorted (· ≤ ·) keys) (hne : keys ≠ []) :
    ∃ i : Int, binarySearchNearest keys target = some i ∧ 0 ≤ i ∧ i.toNat < keys.length ∧
      ∃ m : Nat, (m = i.toNat ∨ m = i.toNat + 1) ∧ IsNearest keys target m := by
  have hlen : 0 < keys.length := List.length_pos.mpr hne
  have hs : ∀ a b : Nat, a ≤ b → b < keys.length → keys.getD a 0 ≤ keys.getD b 0 := by
    intro a b hab hb
    rcases Nat.eq_or_lt_of_le hab with h | h
    · subst h
      exact le_refl _
    · rw [List.getD_eq_getElem _ _ (by omega), List.getD_eq_getElem _ _ hb]
      exact List.pairwise_iff_getElem.mp hsort a b (by omega) hb h
  have hmin : ∃ m : Nat, IsNearest keys target m := by
    obtain ⟨m, hm, hmin⟩ := Finset.exists_min_image (Finset.range keys.length)
      (fun j => |keys.getD j 0 - target|) ⟨0, Finset.mem_range.mpr hlen⟩
    exact ⟨m, Finset.mem_range.mp hm, fun j hj => hmin j (Finset.mem_range.mpr hj)⟩
  obtain ⟨m, hm⟩ := hmin
  have hmlen : m < keys.length := hm.1
  obtain ⟨i, hi, hil, hir⟩ := bsnLoop_some keys target ((keys.length : Int) - 1 - 0).toNat 0
    ((keys.length : Int) - 1) (le_refl _) (le_refl _) (by omega) (by omega)
  obtain ⟨i2, hi2, m2, hm2a, hm2b⟩ := bsnLoop_nearest keys target hs
    ((keys.length : Int) - 1 - 0).toNat 0 ((keys.length : Int) - 1) (le_refl _) (le_refl _)
    (by omega) (by omega) ⟨m, by omega, by omega, hm⟩
  obtain rfl : i = i2 := Option.some_inj.mp (hi.symm.trans hi2)
  exact ⟨i, hi, hil, by omega, m2, hm2a, hm2b⟩

/-- Witness for C1 (amended) on the ascending list `[1, 3, 5]` with target
`4`. -/
theorem binarySearchNearest_nearest_window_witness :
    List.Sorted (· ≤ ·) [(1 : Int), 3, 5] ∧ ([(1 : Int), 3, 5] : List Int) ≠ [] ∧
    (∃ i : Int, binarySearchNearest [(1 : Int), 3, 5] 4 = some i ∧ 0 ≤ i ∧
      i.toNat < ([(1 : Int), 3, 5] : List Int).length ∧
      ∃ m : Nat, (m = i.toNat ∨ m = i.toNat + 1) ∧ IsNearest [(1 : Int), 3, 5] 4 m) :=
  ⟨by decide, by decide, binarySearchNearest_nearest_window [(1 : Int), 3, 5] 4 (by decide)
    (by decide)⟩

/-- C10: for every non-empty key list, `binarySearchNearest` performs only
in-bounds reads (it returns `some`, since any out-of-bounds read would
propagate as `none`) and the returned index lies in `[0, length - 1]`; a
one-element list yields index 0 directly from the `left = right`
short-circuit, without entering the search loop body; and on the empty list
the very first loop iteration reads index `-1` (the model returns
`none`). -/
theorem binarySearchNearest_in_bounds (keys : List Int) (target : Int) :
    (keys ≠ [] → ∃ i : Int, binarySearchNearest keys target = some i ∧ 0 ≤ i ∧
      i.toNat < keys.length) ∧
    (keys.length = 1 → binarySearchNearest keys target = some 0) ∧
    (∀ t : Int, binarySearchNearest [] t = none) := by
  refine ⟨?_, ?_, ?_⟩
  · intro hne
    have hlen : 0 < keys.length := List.length_pos.mpr hne
    obtain ⟨i, hi, hil, hir⟩ := bsnLoop_some keys target ((keys.length : Int) - 1 - 0).toNat 0
      ((keys.length : Int) - 1) (le_refl _) (le_refl _) (by omega) (by omega)
    exact ⟨i, hi, hil, by omega⟩
  · intro h1
    show bsnLoop keys target 0 ((keys.length : Int) - 1) = some 0
    rw [h1]
    norm_num
    rw [bsnLoop]
    simp
  · intro t
    simp [binarySearchNearest, bsnLoop, getKey]

/-- Witness for C10 on the one-element list `[5]` with target `3`. -/
theorem binarySearchNearest_in_bounds_witness :
    ([(5 : Int)] : List Int) ≠ [] ∧
    (∃ i : Int, binarySearchNearest [(5 : Int)] 3 = some i ∧ 0 ≤ i ∧
      i.toNat < ([(5 : Int)] : List Int).length) ∧
    binarySearchNearest [(5 : Int)] 3 = some 0 :=
  ⟨by decide, (binarySearchNearest_in_bounds [(5 : Int)] 3).1 (by decide),
   (binarySearchNearest_in_bounds [(5 : Int)] 3).2.1 (by decide)⟩


/-! #### Animation driver lemmas and claim theorems -/

/-- A frame that fires while the driver is not running performs no
frame-callback invocation and leaves the driver stopped (the `step` closure
is guarded by `this._running`). -/
theorem fireStep_not_running (now : Int) (t : AnimationState) (ht : t.running = false) :
    (Animation.fireStep now t).2 = [] ∧ (Animation.fireStep now t).1.running = false := by
  unfold Animation.fireStep
  split
  · exact ⟨rfl, ht⟩
  · rw [if_neg (by simp [ht])]
    exact ⟨rfl, ht⟩

/-- C4: `Animation.stop` invokes the registered frame callback exactly once,
with the configured duration as the elapsed-time argument, iff the driver was
running at the time of the call; afterwards the running flag is false, and
any number of subsequently firing frames of the stopped run invoke the
callback no further time (and leave the driver stopped). -/
theorem animation_stop_fires_once_iff_running (s : AnimationState) :
    (Animation.stop s).2 = (if s.running then [s.duration] else []) ∧
    (Animation.stop s).1.running = false ∧
    ∀ fires : List Int,
      (Animation.run (Animation.stop s).1 (fires.map AnimEvent.fire)).2 = [] ∧
      (Animation.run (Animation.stop s).1 (fires.map AnimEvent.fire)).1.running = false := by
  have key : ∀ (fires : List Int) (t : AnimationState), t.running = false →
      (Animation.run t (fires.map AnimEvent.fire)).2 = [] ∧
      (Animation.run t (fires.map AnimEvent.fire)).1.running = false := by
    intro fires
    induction fires with
    | nil =>
      intro t ht
      exact ⟨rfl, ht⟩
    | cons now rest ih =>
      intro t ht
      have hstep := fireStep_not_running now t ht
      simp only [List.map_cons, Animation.run, Animation.step]
      rw [hstep.1]
      exact ⟨by simpa using (ih _ hstep.2).1, (ih _ hstep.2).2⟩
  exact ⟨rfl, rfl, fun fires => key fires _ rfl⟩

/-- C5 (counterexample): with the default options (duration 500, one
iteration), the trace start(0); frame-at-500; start(600) reaches a state with
`running = true` and `currentIterationCount = iterationCount = 1` — `start()`
never resets `_currentIterationCount`, so restarting after natural completion
violates `currentIterationCount < iterationCount while running`.  Moreover
the trace start(0); stop() reaches a state with `running = false` while a
frame is still scheduled — `stop()` cancels nothing, violating
`running = false implies no frame is scheduled`. -/
theorem animation_invariant_cx :
    ((Animation.run (Animation.init 500 1)
        [AnimEvent.start 0, AnimEvent.fire 500, AnimEvent.start 600]).1.running = true ∧
     ¬ (Animation.run (Animation.init 500 1)
        [AnimEvent.start 0, AnimEvent.fire 500, AnimEvent.start 600]).1.currentIterationCount <
       (Animation.run (Animation.init 500 1)
        [AnimEvent.start 0, AnimEvent.fire 500, AnimEvent.start 600]).1.iterationCount) ∧
    ((Animation.run (Animation.init 500 1) [AnimEvent.start 0, AnimEvent.stop]).1.running = false ∧
     0 < (Animation.run (Animation.init 500 1) [AnimEvent.start 0, AnimEvent.stop]).1.pending) := by
  decide

/-- One guarded event preserves the driver invariant. -/
theorem step_inv (t : AnimationState) (e : AnimEvent) (h : Animation.Inv t)
    (hg : (match e with
           | AnimEvent.start _ => decide (t.currentIterationCount < t.iterationCount)
           | _ => true) = true) :
    Animation.Inv (Animation.step t e).1 := by
  cases e with
  | start now =>
    simp only [decide_eq_true_eq] at hg
    show Animation.Inv (Animation.start now t).1
    unfold Animation.start
    split
    · exact h
    · exact ⟨h.1, fun _ => hg⟩
  | stop =>
    refine ⟨h.1, ?_⟩
    show ((Animation.stop t).1.running = true → _)
    simp [Animation.stop]
  | fire now =>
    show Animation.Inv (Animation.fireStep now t).1
    unfold Animation.fireStep
    by_cases hp : t.pending = 0
    · rw [if_pos hp]
      exact h
    · rw [if_neg hp]
      by_cases hr : t.running
      · rw [if_pos (by simpa using hr)]
        by_cases hd : now - t.time < t.duration
        · rw [if_pos (by simpa using hd)]
          exact ⟨h.1, fun _ => h.2 hr⟩
        · rw [if_neg (by simpa using hd)]
          have hlt : t.currentIterationCount < t.iterationCount := h.2 hr
          dsimp only [Animation.stop]
          split
          · next hcase =>
            unfold Animation.start
            split
            · next hrun => simp at hrun
            · exact ⟨by simpa using hlt, fun _ => by simpa using hcase⟩
          · next hcase =>
            refine ⟨by simpa using hlt, fun hcontra => ?_⟩
            simp at hcontra
      · rw [if_neg (by simpa using hr)]
        exact ⟨h.1, fun hcontra => by simp_all⟩

/-- A guarded trace preserves the driver invariant. -/
theorem run_inv : ∀ (tr : List AnimEvent) (t : AnimationState), Animation.Inv t →
    Animation.goodTrace t tr = true → Animation.Inv (Animation.run t tr).1 := by
  intro tr
  induction tr with
  | nil =>
    intro t h _
    exact h
  | cons e rest ih =>
    intro t h hg
    unfold Animation.goodTrace at hg
    rw [Bool.and_eq_true] at hg
    exact ih _ (step_inv t e h hg.1) hg.2

/-- C5 (amended): in every state reached from a fresh driver by a trace in
which external `start()` calls are only issued while iterations remain
(`currentIterationCount < iterationCount` — the code never resets the
counter, so a restart after natural completion of all iterations is excluded),
`currentIterationCount < iterationCount` holds whenever the driver is
running; and whenever the running flag is false, a frame may still be
physically scheduled, but any frame firing in that state is inert: it invokes
the frame callback zero times. -/
theorem animation_invariant_amended (dur : Int) (itc : Nat) (tr : List AnimEvent)
    (hg : Animation.goodTrace (Animation.init dur itc) tr = true) :
    ((Animation.run (Animation.init dur itc) tr).1.running = true →
      (Animation.run (Animation.init dur itc) tr).1.currentIterationCount <
      (Animation.run (Animation.init dur itc) tr).1.iterationCount) ∧
    (∀ now : Int, (Animation.run (Animation.init dur itc) tr).1.running = false →
      (Animation.fireStep now (Animation.run (Animation.init dur itc) tr).1).2 = []) := by
  have h := run_inv tr (Animation.init dur itc)
    ⟨by simp [Animation.init], by simp [Animation.init]⟩ hg
  exact ⟨h.2, fun now hr => (fireStep_not_running now _ hr).1⟩

/-- Witness for C5 (amended) on the guarded trace start(0); frame-at-100;
stop() with the default configuration. -/
theorem animation_invariant_amended_witness :
    Animation.goodTrace (Animation.init 500 1)
      [AnimEvent.start 0, AnimEvent.fire 100, AnimEvent.stop] = true ∧
    (((Animation.run (Animation.init 500 1)
        [AnimEvent.start 0, AnimEvent.fire 100, AnimEvent.stop]).1.running = true →
      (Animation.run (Animation.init 500 1)
        [AnimEvent.start 0, AnimEvent.fire 100, AnimEvent.stop]).1.currentIterationCount <
      (Animation.run (Animation.init 500 1)
        [AnimEvent.start 0, AnimEvent.fire 100, AnimEvent.stop]).1.iterationCount) ∧
    (∀ now : Int, (Animation.run (Animation.init 500 1)
        [AnimEvent.start 0, AnimEvent.fire 100, AnimEvent.stop]).1.running = false →
      (Animation.fireStep now (Animation.run (Animation.init 500 1)
        [AnimEvent.start 0, AnimEvent.fire 100, AnimEvent.stop]).1).2 = [])) :=
  ⟨by decide, animation_invariant_amended 500 1 _ (by decide)⟩

/-- C6: starting a driver configured with duration 100 and iterationCount 2
and letting both iterations complete naturally (frames at times 100 and 200)
invokes the frame callback with elapsed = 100 exactly once per iteration —
twice in total — before the driver settles idle with nothing scheduled.
In general, a frame that fires on a running driver at or past the deadline
emits exactly the terminal `duration` callback, advances the iteration
counter, and immediately re-enters the running state with a fresh start
timestamp iff `currentIterationCount + 1 < iterationCount`; otherwise the
driver stays idle with its old timestamp. -/
theorem animation_two_iterations :
    (Animation.run (Animation.init 100 2)
      [AnimEvent.start 0, AnimEvent.fire 100, AnimEvent.fire 200]).2 = [100, 100] ∧
    (Animation.run (Animation.init 100 2)
      [AnimEvent.start 0, AnimEvent.fire 100, AnimEvent.fire 200]).1.running = false ∧
    (Animation.run (Animation.init 100 2)
      [AnimEvent.start 0, AnimEvent.fire 100, AnimEvent.fire 200]).1.pending = 0 ∧
    (∀ (s : AnimationState) (now : Int), s.running = true → 0 < s.pending →
      s.duration ≤ now - s.time →
      (Animation.fireStep now s).2 = [s.duration] ∧
      (Animation.fireStep now s).1.currentIterationCount = s.currentIterationCount + 1 ∧
      (if s.currentIterationCount + 1 < s.iterationCount
       then (Animation.fireStep now s).1.running = true ∧ (Animation.fireStep now s).1.time = now
       else (Animation.fireStep now s).1.running = false ∧
            (Animation.fireStep now s).1.time = s.time)) := by
  refine ⟨by decide, by decide, by decide, ?_⟩
  intro s now hr hp hd
  unfold Animation.fireStep
  rw [if_neg (by omega)]
  dsimp only
  rw [if_pos (by simpa using hr)]
  rw [if_neg (by omega)]
  dsimp only [Animation.stop, Animation.start]
  by_cases hc : s.currentIterationCount + 1 < s.iterationCount
  · rw [if_pos (by simpa using hc)]
    rw [if_neg (by simp)]
    simp [hr, hc]
  · rw [if_neg (by simpa using hc)]
    simp [hr, hc]

/-- Witness for C6's general completion rule at the mid-flight state
`Animation.midState` and a frame firing at time 100. -/
theorem animation_two_iterations_witness :
    Animation.midState.running = true ∧ 0 < Animation.midState.pending ∧
    Animation.midState.duration ≤ (100 : Int) - Animation.midState.time ∧
    ((Animation.fireStep 100 Animation.midState).2 = [Animation.midState.duration] ∧
     (Animation.fireStep 100 Animation.midState).1.currentIterationCount =
       Animation.midState.currentIterationCount + 1 ∧
     (if Animation.midState.currentIterationCount + 1 < Animation.midState.iterationCount
      then (Animation.fireStep 100 Animation.midState).1.running = true ∧
           (Animation.fireStep 100 Animation.midState).1.time = 100
      else (Animation.fireStep 100 Animation.midState).1.running = false ∧
           (Animation.fireStep 100 Animation.midState).1.time = Animation.midState.time)) :=
  ⟨rfl, by decide, by decide,
   animation_two_iterations.2.2.2 Animation.midState 100 rfl (by decide) (by decide)⟩


/-! #### Event dispatch tree claim theorem -/

/-- C7: for a parent node `p` with children `[A, B]` added in that order
(`B` topmost), if both children report a hit (overridden hit test true) and
both have a handler registered for the dispatched event that consumes it,
then dispatching on the parent invokes only `B`'s handler — the result is
`(true, [B.eid])`: neither `A`'s handler nor the parent's own handler runs.
In general (second conjunct), whenever the reverse-order child sweep reports
the event handled, the parent returns that result unchanged — its own
handler never fires when some child consumed the event. -/
theorem eventful_topmost_priority :
    (∀ (p a b : ENode),
       a.hitOverride = some true → a.hasCallback = true → a.callbackResult = true →
       b.hitOverride = some true → b.hasCallback = true → b.callbackResult = true →
       ETree.dispatchEvent (ETree.node p
         (EForest.cons (ETree.node a EForest.nil)
           (EForest.cons (ETree.node b EForest.nil) EForest.nil))) = (true, [b.eid])) ∧
    (∀ (n : ENode) (cs : EForest) (l : List Nat),
       EForest.dispatchTopmost cs = (true, l) →
       ETree.dispatchEvent (ETree.node n cs) = (true, l)) := by
  constructor
  · intro p a b ha1 ha2 ha3 hb1 hb2 hb3
    simp [ETree.dispatchEvent, EForest.dispatchTopmost, ETree.onEvent, ETree.checkEventOn,
      ha1, ha2, ha3, hb1, hb2, hb3]
  · intro n cs l h
    simp [ETree.dispatchEvent, h]

/-- Witness for C7 with concrete consuming children 1 (bottom) and 2 (top)
under parent 0. -/
theorem eventful_topmost_priority_witness :
    ((⟨1, true, true, some true⟩ : ENode).hitOverride = some true ∧
     (⟨1, true, true, some true⟩ : ENode).hasCallback = true ∧
     (⟨1, true, true, some true⟩ : ENode).callbackResult = true ∧
     (⟨2, true, true, some true⟩ : ENode).hitOverride = some true ∧
     (⟨2, true, true, some true⟩ : ENode).hasCallback = true ∧
     (⟨2, true, true, some true⟩ : ENode).callbackResult = true) ∧
    ETree.dispatchEvent (ETree.node ⟨0, true, true, none⟩
      (EForest.cons (ETree.node ⟨1, true, true, some true⟩ EForest.nil)
        (EForest.cons (ETree.node ⟨2, true, true, some true⟩ EForest.nil) EForest.nil))) =
      (true, [(⟨2, true, true, some true⟩ : ENode).eid]) :=
  ⟨⟨rfl, rfl, rfl, rfl, rfl, rfl⟩,
   eventful_topmost_priority.1 ⟨0, true, true, none⟩ ⟨1, true, true, some true⟩
     ⟨2, true, true, some true⟩ rfl rfl rfl rfl rfl rfl⟩

/-! #### Capability probe / teardown claim theorem -/

/-- C3: calling `destroy()` before the asynchronous device-pixel-content-box
probe resolves does not throw — both `isValid` guards see unassigned fields
and `destroy` is a pure no-op.  But the probe continuation contains no
liveness check: when the promise later resolves, it installs a
`ResizeObserver` observing the canvas element (probe result true) or a
media-query listener (probe result false) even though `destroy()` already
returned — contradicting the claim that no observer is ever installed after
`destroy()` returns.  This theorem evaluates the code at that failing
schedule. -/
theorem canvas_destroy_probe_race :
    Canvas.destroy Canvas.probeInit = Canvas.probeInit ∧
    (Canvas.probeResolve true (Canvas.destroy Canvas.probeInit)).resizeObserverObserving
      = true ∧
    (Canvas.probeResolve false (Canvas.destroy Canvas.probeInit)).mediaListenerInstalled
      = true := by
  decide


/-! #### Surface manager coalescing lemmas and claim theorems -/

/-- `_executeListener` absorbs a request while a frame is already pending:
the state (including the stored closure) is unchanged. -/
theorem executeListener_absorbed (w : Bool) (sp : CanvasPixelState) (h : sp.frameRequest ≠ none) :
    Canvas.executeListener w sp = sp := by
  unfold Canvas.executeListener
  match hm : sp.frameRequest with
  | none => exact absurd hm h
  | some b => rfl

/-- A trigger arriving while a frame is pending leaves the pending frame (and
its closure) unchanged. -/
theorem applyTrigger_pending (s : CanvasPixelState) (t : CanvasTrigger) (b : Bool)
    (h : s.frameRequest = some b) :
    (Canvas.applyTrigger s t).frameRequest = some b := by
  cases t with
  | update w hh r =>
    show (Canvas.update w hh r s).frameRequest = some b
    unfold Canvas.update Canvas.resetPixelRatio
    dsimp only
    split
    · split
      · rw [executeListener_absorbed true _ (by simp [h])]
        exact h
      · exact h
    · rw [executeListener_absorbed false _ (by simp [h])]
      exact h
  | densityChange r =>
    show (Canvas.mediaQueryListener r s).frameRequest = some b
    unfold Canvas.mediaQueryListener Canvas.resetPixelRatio
    dsimp only
    rw [executeListener_absorbed true _ (by simp [h])]
    exact h

/-- Any number of further triggers leave the pending frame unchanged. -/
theorem applyTriggers_pending (ts : List CanvasTrigger) :
    ∀ (s : CanvasPixelState) (b : Bool), s.frameRequest = some b →
    (Canvas.applyTriggers s ts).frameRequest = some b := by
  induction ts with
  | nil =>
    intro s b h
    exact h
  | cons t rest ih =>
    intro s b h
    exact ih _ b (applyTrigger_pending s t b h)

/-- The first trigger of a window (arriving with no frame pending, fallback
mode) schedules a frame whose closure is the reconciliation body iff the
trigger is a reconciliation trigger. -/
theorem applyTrigger_first (s : CanvasPixelState) (t : CanvasTrigger)
    (hnone : s.frameRequest = none) (hsup : s.supportedDevicePixelContentBox = false) :
    (Canvas.applyTrigger s t).frameRequest = some (CanvasTrigger.schedulesReset s t) := by
  cases t with
  | update w hh r =>
    show (Canvas.update w hh r s).frameRequest = some _
    unfold Canvas.update CanvasTrigger.schedulesReset Canvas.resetPixelRatio
    dsimp only
    by_cases hc : s.width ≠ w ∨ s.height ≠ hh
    · rw [if_pos hc]
      rw [if_pos (by simp [hsup])]
      unfold Canvas.executeListener
      simp only [hnone]
      simp [hc]
    · rw [if_neg hc]
      unfold Canvas.executeListener
      simp only [hnone]
      simp [hc]
  | densityChange r =>
    show (Canvas.mediaQueryListener r s).frameRequest = some _
    unfold Canvas.mediaQueryListener Canvas.resetPixelRatio Canvas.executeListener
      CanvasTrigger.schedulesReset
    dsimp only
    simp only [hnone]

/-- C2 (amended): in the media-query fallback mode, any non-empty burst of
`update` calls and density-change notifications arriving with no frame
pending produces exactly one pending frame and, when it fires, exactly one
paint-listener invocation; a new frame is requested only when none is pending
(final conjunct: a request arriving while one is pending is absorbed, state
unchanged).  The fired frame performs a physical reconciliation iff the
first trigger of the burst — the one that scheduled the frame — was a
reconciliation trigger (a size-changing `update` or a density change), and
when it does, it applies the latest pending pixel dimensions (those recorded
by the last trigger of the burst).  If the frame was scheduled by an
unchanged-size `update`, no reconciliation occurs in that frame even if later
triggers of the burst requested one. -/
theorem canvas_coalescing_amended (s : CanvasPixelState) (t : CanvasTrigger)
    (ts : List CanvasTrigger) (hnone : s.frameRequest = none)
    (hsup : s.supportedDevicePixelContentBox = false) :
    (Canvas.applyTriggers s (t :: ts)).frameRequest = some (CanvasTrigger.schedulesReset s t) ∧
    (Canvas.fireFrame (Canvas.applyTriggers s (t :: ts))).2 =
      (if CanvasTrigger.schedulesReset s t then [CanvasEffect.reconcile, CanvasEffect.paint]
       else [CanvasEffect.paint]) ∧
    (Canvas.fireFrame (Canvas.applyTriggers s (t :: ts))).2.count CanvasEffect.paint = 1 ∧
    (Canvas.fireFrame (Canvas.applyTriggers s (t :: ts))).1.frameRequest = none ∧
    (CanvasTrigger.schedulesReset s t = true →
      (Canvas.fireFrame (Canvas.applyTriggers s (t :: ts))).1.pixelWidth =
        (Canvas.applyTriggers s (t :: ts)).nextPixelWidth ∧
      (Canvas.fireFrame (Canvas.applyTriggers s (t :: ts))).1.pixelHeight =
        (Canvas.applyTriggers s (t :: ts)).nextPixelHeight ∧
      (Canvas.fireFrame (Canvas.applyTriggers s (t :: ts))).1.elementWidth =
        (Canvas.applyTriggers s (t :: ts)).nextPixelWidth ∧
      (Canvas.fireFrame (Canvas.applyTriggers s (t :: ts))).1.elementHeight =
        (Canvas.applyTriggers s (t :: ts)).nextPixelHeight) ∧
    (∀ (w : Bool) (sp : CanvasPixelState), sp.frameRequest ≠ none →
      Canvas.executeListener w sp = sp) := by
  have h1 : (Canvas.applyTriggers s (t :: ts)).frameRequest =
      some (CanvasTrigger.schedulesReset s t) := by
    show (Canvas.applyTriggers (Canvas.applyTrigger s t) ts).frameRequest = _
    exact applyTriggers_pending ts _ _ (applyTrigger_first s t hnone hsup)
  refine ⟨h1, ?_, ?_, ?_, ?_, executeListener_absorbed⟩ <;>
    [skip; skip; skip; skip] <;> unfold Canvas.fireFrame <;> rw [h1]
  · by_cases hb : CanvasTrigger.schedulesReset s t
    · rw [hb]
      simp
    · simp only [Bool.not_eq_true] at hb
      rw [hb]
      simp
  · by_cases hb : CanvasTrigger.schedulesReset s t
    · rw [hb]
      simp
    · simp only [Bool.not_eq_true] at hb
      rw [hb]
      simp
  · by_cases hb : CanvasTrigger.schedulesReset s t
    · rw [hb]
      simp
    · simp only [Bool.not_eq_true] at hb
      rw [hb]
      simp
  · intro hb
    rw [hb]
    simp

/-- Witness for C2 (amended) on the settled sample state hit by a single
density-change notification (new pixel ratio 2). -/
theorem canvas_coalescing_amended_witness :
    Canvas.sample.frameRequest = none ∧
    Canvas.sample.supportedDevicePixelContentBox = false ∧
    (Canvas.applyTriggers Canvas.sample [CanvasTrigger.densityChange 2]).frameRequest =
      some (CanvasTrigger.schedulesReset Canvas.sample (CanvasTrigger.densityChange 2)) ∧
    (Canvas.fireFrame (Canvas.applyTriggers Canvas.sample [CanvasTrigger.densityChange 2])).2 =
      (if CanvasTrigger.schedulesReset Canvas.sample (CanvasTrigger.densityChange 2) then
        [CanvasEffect.reconcile, CanvasEffect.paint] else [CanvasEffect.paint]) ∧
    (Canvas.fireFrame (Canvas.applyTriggers Canvas.sample
      [CanvasTrigger.densityChange 2])).2.count CanvasEffect.paint = 1 ∧
    (Canvas.fireFrame (Canvas.applyTriggers Canvas.sample
      [CanvasTrigger.densityChange 2])).1.frameRequest = none ∧
    (CanvasTrigger.schedulesReset Canvas.sample (CanvasTrigger.densityChange 2) = true →
      (Canvas.fireFrame (Canvas.applyTriggers Canvas.sample
        [CanvasTrigger.densityChange 2])).1.pixelWidth =
        (Canvas.applyTriggers Canvas.sample [CanvasTrigger.densityChange 2]).nextPixelWidth ∧
      (Canvas.fireFrame (Canvas.applyTriggers Canvas.sample
        [CanvasTrigger.densityChange 2])).1.pixelHeight =
        (Canvas.applyTriggers Canvas.sample [CanvasTrigger.densityChange 2]).nextPixelHeight ∧
      (Canvas.fireFrame (Canvas.applyTriggers Canvas.sample
        [CanvasTrigger.densityChange 2])).1.elementWidth =
        (Canvas.applyTriggers Canvas.sample [CanvasTrigger.densityChange 2]).nextPixelWidth ∧
      (Canvas.fireFrame (Canvas.applyTriggers Canvas.sample
        [CanvasTrigger.densityChange 2])).1.elementHeight =
        (Canvas.applyTriggers Canvas.sample [CanvasTrigger.densityChange 2]).nextPixelHeight) ∧
    (∀ (w : Bool) (sp : CanvasPixelState), sp.frameRequest ≠ none →
      Canvas.executeListener w sp = sp) :=
  ⟨rfl, rfl,
   canvas_coalescing_amended Canvas.sample (CanvasTrigger.densityChange 2) [] rfl rfl⟩

/-- C2 (counterexample to the claim as stated): from the settled 100×100
sample state, an unchanged-size `update(100, 100)` (a plain repaint request)
followed by `update(200, 100)` (a size change recording pending pixel width
200) before the frame fires yields a frame that performs zero physical
reconciliations — only a paint — and leaves the physical pixel buffer at the
stale width 100 instead of the latest pending 200: the reconciliation closure
of the second call was absorbed together with its frame request. -/
theorem canvas_coalescing_cx :
    Canvas.sample.frameRequest = none ∧
    Canvas.sample.supportedDevicePixelContentBox = false ∧
    Canvas.sample.width = 100 ∧ Canvas.sample.height = 100 ∧
    (Canvas.applyTriggers Canvas.sample
      [CanvasTrigger.update 100 100 1, CanvasTrigger.update 200 100 1]).nextPixelWidth = 200 ∧
    (Canvas.fireFrame (Canvas.applyTriggers Canvas.sample
      [CanvasTrigger.update 100 100 1, CanvasTrigger.update 200 100 1])).2 =
      [CanvasEffect.paint] ∧
    (Canvas.fireFrame (Canvas.applyTriggers Canvas.sample
      [CanvasTrigger.update 100 100 1, CanvasTrigger.update 200 100 1])).1.pixelWidth = 100 ∧
    (Canvas.fireFrame (Canvas.applyTriggers Canvas.sample
      [CanvasTrigger.update 100 100 1, CanvasTrigger.update 200 100 1])).1.elementWidth
      = 100 := by
  norm_num [Canvas.applyTriggers, Canvas.applyTrigger, Canvas.update, Canvas.mediaQueryListener,
    Canvas.resetPixelRatio, Canvas.executeListener, Canvas.fireFrame, Canvas.sample]


/-! #### Tick-rounding lemmas and claim theorem -/

/-- `Math.pow(10, e)` at an integer exponent is the integer power. -/
theorem index10_intCast (e : ℤ) : index10 (e : ℝ) = (10 : ℝ) ^ e :=
  Real.rpow_intCast 10 e

/-- Rounding to `d` decimal places is the identity on reals that are integer
multiples of `10 ^ (-d)`. -/
theorem toFixedNum_eq_self (x : ℝ) (d : Nat) (m : ℤ) (hm : x * 10 ^ d = (m : ℝ)) :
    toFixedNum x d = x := by
  unfold toFixedNum
  rw [hm, round_intCast, ← hm]
  have h10 : (10 : ℝ) ^ d ≠ 0 := by positivity
  field_simp

/-- `toFixed(|e|)` leaves `k × 10 ^ e` unchanged for an integer mantissa
`k`. -/
theorem kpow_toFixed (k : ℤ) (e : ℤ) :
    toFixedNum ((k : ℝ) * (10 : ℝ) ^ e) e.natAbs = (k : ℝ) * (10 : ℝ) ^ e := by
  by_cases he : 0 ≤ e
  · have hna : e.natAbs = e.toNat := by omega
    have hz : (10 : ℝ) ^ e = (10 : ℝ) ^ e.toNat := by
      rw [← zpow_natCast (10 : ℝ) e.toNat]
      congr 1
      omega
    refine toFixedNum_eq_self _ _ (k * 10 ^ (e.toNat + e.toNat)) ?_
    rw [hna, hz]
    push_cast
    ring
  · have hna : (e.natAbs : ℤ) = -e := by omega
    refine toFixedNum_eq_self _ _ k ?_
    have hsplit : ((k : ℝ) * (10 : ℝ) ^ e) * 10 ^ e.natAbs =
        (k : ℝ) * ((10 : ℝ) ^ e * (10 : ℝ) ^ (e.natAbs : ℤ)) := by
      rw [← zpow_natCast (10 : ℝ) e.natAbs]
      ring
    rw [hsplit, ← zpow_add₀ (by norm_num : (10 : ℝ) ≠ 0), hna]
    simp

/-- For a single-digit integer mantissa `k ∈ [1, 10)`,
`⌊log10 (k × 10 ^ e)⌋ = e`. -/
theorem floor_log10_kpow (k : ℤ) (hk1 : 1 ≤ k) (hk10 : k < 10) (e : ℤ) :
    ⌊log10 ((k : ℝ) * (10 : ℝ) ^ e)⌋ = e := by
  have hkpos : (0 : ℝ) < (k : ℝ) := by exact_mod_cast hk1
  have hxne : (k : ℝ) * (10 : ℝ) ^ e ≠ 0 := by positivity
  unfold log10
  rw [if_neg hxne]
  rw [Real.logb_mul (by positivity) (by positivity)]
  have hzp : Real.logb 10 ((10 : ℝ) ^ e) = (e : ℝ) := by
    rw [← Real.rpow_intCast 10 e]
    exact Real.logb_rpow (by norm_num) (by norm_num)
  rw [hzp]
  rw [Int.floor_add_int]
  have h0 : 0 ≤ Real.logb 10 (k : ℝ) := Real.logb_nonneg (by norm_num) (by exact_mod_cast hk1)
  have h1 : Real.logb 10 (k : ℝ) < 1 := by
    have hklt : (k : ℝ) < (10 : ℝ) := by exact_mod_cast hk10
    have := Real.logb_lt_logb (b := 10) (by norm_num) hkpos hklt
    rwa [Real.logb_self_eq_one (by norm_num)] at this
  rw [Int.floor_eq_zero_iff.mpr ⟨h0, h1⟩]
  simp

/-- `nice` always produces `k × 10 ^ ⌊log10 value⌋` for some snapped mantissa
`k ∈ {1,2,3,4,5,6,8}` — the final `toFixed(|exponent|)` does not disturb the
product. -/
theorem nice_eq (v : ℝ) : ∃ k : ℤ,
    (k = 1 ∨ k = 2 ∨ k = 3 ∨ k = 4 ∨ k = 5 ∨ k = 6 ∨ k = 8) ∧
    nice v = (k : ℝ) * (10 : ℝ) ^ (⌊log10 v⌋ : ℤ) := by
  unfold nice
  dsimp only
  rw [index10_intCast]
  split_ifs
  · exact ⟨1, by norm_num, by have h := kpow_toFixed 1 ⌊log10 v⌋; push_cast at h ⊢; exact h⟩
  · exact ⟨2, by norm_num, by have h := kpow_toFixed 2 ⌊log10 v⌋; push_cast at h ⊢; exact h⟩
  · exact ⟨3, by norm_num, by have h := kpow_toFixed 3 ⌊log10 v⌋; push_cast at h ⊢; exact h⟩
  · exact ⟨4, by norm_num, by have h := kpow_toFixed 4 ⌊log10 v⌋; push_cast at h ⊢; exact h⟩
  · exact ⟨5, by norm_num, by have h := kpow_toFixed 5 ⌊log10 v⌋; push_cast at h ⊢; exact h⟩
  · exact ⟨6, by norm_num, by have h := kpow_toFixed 6 ⌊log10 v⌋; push_cast at h ⊢; exact h⟩
  · exact ⟨8, by norm_num, by have h := kpow_toFixed 8 ⌊log10 v⌋; push_cast at h ⊢; exact h⟩

/-- C9: for every positive value, `nice(value)` divided by
`10 ^ ⌊log10 (nice value)⌋` is exactly one of `{1,2,3,4,5,6,8}` (the mantissa
snapped at the breakpoints 1.5, 2.5, 3.5, 4.5, 5.5, 6.5), and `log10 0 = 0`
by definition, so `nice 0` evaluates without a domain error. -/
theorem nice_mantissa :
    (∀ value : ℝ, 0 < value →
      nice value / index10 ((⌊log10 (nice value)⌋ : ℤ) : ℝ) ∈
        ({1, 2, 3, 4, 5, 6, 8} : Set ℝ)) ∧
    log10 0 = 0 := by
  constructor
  · intro v hv
    obtain ⟨k, hks, hnice⟩ := nice_eq v
    have hk1 : (1 : ℤ) ≤ k := by rcases hks with h|h|h|h|h|h|h <;> omega
    have hk10 : k < 10 := by rcases hks with h|h|h|h|h|h|h <;> omega
    rw [hnice, floor_log10_kpow k hk1 hk10, index10_intCast]
    have hne : (10 : ℝ) ^ (⌊log10 v⌋ : ℤ) ≠ 0 := by positivity
    rw [mul_div_assoc, div_self hne, mul_one]
    rcases hks with h|h|h|h|h|h|h <;> subst h <;> push_cast <;> simp
  · simp [log10]

/-- Witness for C9 at value 3. -/
theorem nice_mantissa_witness :
    (0 : ℝ) < 3 ∧
    nice 3 / index10 ((⌊log10 (nice 3)⌋ : ℤ) : ℝ) ∈ ({1, 2, 3, 4, 5, 6, 8} : Set ℝ) :=
  ⟨zero_lt_three, nice_mantissa.1 3 zero_lt_three⟩

end KC
